import Mathlib

/-!
Verification of the feature-derivation pipeline of the Pearls-AQI-Predictor
repository (`src/feature_engineering.py`, together with the training/serving
schema contract of `src/train.py` and `src/app/api.py`).

The pipeline is embedded shallowly:
* a raw table is a list of `RawRow` (timestamp in epoch seconds, nine
  pollutant channels, each possibly null);
* pandas column operations (`shift`, `rolling(...).mean()/.std()`,
  `interpolate(method='linear', limit_direction='both')`, `ffill`, `bfill`)
  become explicit functions on `List (Option ℚ)`;
* cyclic calendar encodings become real-valued functions of the timestamp;
* `dropna` becomes a filter on row indices keeping rows whose every derived
  column is non-null.
-/

namespace AQI

/-! ## pandas column primitives -/

/-- pandas `Series.shift(n)` for `n ≥ 0` on a column: element `i` of the
result is element `i - n` of the input when `i ≥ n`, and null otherwise.
The length of the column is preserved. -/
def pandasShift (n : ℕ) (xs : List (Option ℚ)) : List (Option ℚ) :=
  List.replicate (min n xs.length) none ++ xs.take (xs.length - n)

/-- pandas `Series.shift(-n)` on a column: element `i` of the result is
element `i + n` of the input when that exists, and null otherwise. -/
def pandasShiftNeg (n : ℕ) (xs : List (Option ℚ)) : List (Option ℚ) :=
  xs.drop n ++ List.replicate (min n xs.length) none

/-- Arithmetic mean of a list of rationals (pandas `mean`). -/
def listMean (l : List ℚ) : ℚ := l.sum / l.length

/-- Sample variance with `ddof = 1` (the quantity whose square root pandas
`rolling(...).std()` reports). -/
def listVar (l : List ℚ) : ℚ :=
  (l.map (fun x => (x - listMean l) ^ 2)).sum / ((l.length : ℚ) - 1)

/-- pandas `Series.rolling(window = w).agg` with the default
`min_periods = w`: at index `i` the window is the trailing slice of size at
most `w` ending at `i`; the aggregate is emitted only when the window holds
`w` non-null observations, otherwise the result is null. -/
def rollingAgg (f : List ℚ → ℚ) (w : ℕ) (xs : List (Option ℚ)) : List (Option ℚ) :=
  (List.range xs.length).map fun i =>
    let window := ((xs.take (i + 1)).drop (i + 1 - w)).reduceOption
    if w ≤ window.length then some (f window) else none

/-- Lag feature column: `df[col].shift(lag)` (feature_engineering.py line 65). -/
def lagCol (h : ℕ) (c : List (Option ℚ)) : List (Option ℚ) := pandasShift h c

/-- Rolling-mean feature column:
`df[col].shift(1).rolling(window=window).mean()` (line 73). -/
def rollMeanCol (w : ℕ) (c : List (Option ℚ)) : List (Option ℚ) :=
  rollingAgg listMean w (pandasShift 1 c)

/-- The sample variance underlying the rolling-std feature column. -/
def rollVarCol (w : ℕ) (c : List (Option ℚ)) : List (Option ℚ) :=
  rollingAgg listVar w (pandasShift 1 c)

/-- Rolling-std feature column:
`df[col].shift(1).rolling(window=window).std()` (line 74). -/
noncomputable def rollStdCol (w : ℕ) (c : List (Option ℚ)) : List (Option ℝ) :=
  (rollVarCol w c).map (Option.map fun v : ℚ => Real.sqrt (v : ℝ))

/-- Target column: `df[ch].shift(-H)` (lines 83–85). -/
def targetCol (H : ℕ) (c : List (Option ℚ)) : List (Option ℚ) := pandasShiftNeg H c

/-! ## Imputation (lines 27–41) -/

/-- Forward fill, carrying the last non-null value seen so far. -/
def ffillGo : Option ℚ → List (Option ℚ) → List (Option ℚ)
  | _, [] => []
  | last, none :: t => last :: ffillGo last t
  | _, some v :: t => some v :: ffillGo (some v) t

/-- pandas `Series.ffill()`. -/
def ffillCol (xs : List (Option ℚ)) : List (Option ℚ) := ffillGo none xs

/-- pandas `Series.bfill()`: forward fill on the reversed column. -/
def bfillCol (xs : List (Option ℚ)) : List (Option ℚ) :=
  (ffillGo none xs.reverse).reverse

/-- How interpolation fills a null entry from its nearest valid neighbour on
each side: linear interpolation by position between two neighbours, the
nearest valid value when only one side has one, null when neither does. -/
def interpCombine (i : ℕ) (b a : Option (ℕ × ℚ)) : Option ℚ :=
  match b, a with
  | some (j, vj), some (k, vk) =>
      some (vj + (vk - vj) * (((i : ℚ) - (j : ℚ)) / ((k : ℚ) - (j : ℚ))))
  | some (_, vj), none => some vj
  | none, some (_, vk) => some vk
  | none, none => none

/-- Value of `Series.interpolate(method='linear', limit_direction='both')`
at index `i`, combining the nearest valid neighbour on each side. -/
def interpAt (xs : List (Option ℚ)) (i : ℕ) : Option ℚ :=
  match xs.getD i none with
  | some v => some v
  | none =>
    interpCombine i
      (((List.range i).filterMap fun j => (xs.getD j none).map fun v => (j, v)).getLast?)
      (((List.range' (i + 1) (xs.length - (i + 1))).filterMap
        fun k => (xs.getD k none).map fun v => (k, v)).head?)

/-- pandas `Series.interpolate(method='linear', limit_direction='both')`. -/
def interpolateLinear (xs : List (Option ℚ)) : List (Option ℚ) :=
  (List.range xs.length).map (interpAt xs)

/-- The imputation applied to every pollutant column (lines 33–39):
interpolate when the column has at least one null (the code guards on
`original_nan_count > 0`; interpolation is the identity otherwise), then
forward fill, then backward fill. -/
def imputeColumn (c : List (Option ℚ)) : List (Option ℚ) :=
  bfillCol (ffillCol (if c.any (fun x => x.isNone) then interpolateLinear c else c))

/-! ## Raw table and time normalization (lines 22–25) -/

/-- One row of the raw table `karachi_air_quality_raw` (see
`src/raw_ingestion.py`): an epoch-second timestamp and the nine pollutant
channels, each possibly null. -/
structure RawRow where
  ts : ℤ
  aqi : Option ℚ
  co : Option ℚ
  no : Option ℚ
  no2 : Option ℚ
  o3 : Option ℚ
  so2 : Option ℚ
  pm2_5 : Option ℚ
  pm10 : Option ℚ
  nh3 : Option ℚ
deriving DecidableEq

/-- Timestamp comparison used to sort the raw table. -/
def tsLE (a b : RawRow) : Prop := a.ts ≤ b.ts

instance : DecidableRel tsLE := fun a b => inferInstanceAs (Decidable (a.ts ≤ b.ts))

/-- `df.sort_values(by='timestamp').reset_index(drop=True)` (line 25):
a sort of the rows by timestamp.  No deduplication is performed. -/
def timeNormalize (rows : List RawRow) : List RawRow :=
  List.insertionSort tsLE rows

/-! ## Calendar fields and cyclic encodings (lines 43–56) -/

/-- `timestamp.dt.hour` for an epoch-second timestamp. -/
def tsHour (t : ℤ) : ℕ := ((t % 86400) / 3600).toNat

/-- `timestamp.dt.dayofweek` (Monday = 0) for an epoch-second timestamp;
day 0 of the epoch was a Thursday. -/
def tsDow (t : ℤ) : ℕ := ((Int.fdiv t 86400 + 3) % 7).toNat

/-- `timestamp.dt.month` for an epoch-second timestamp (civil-from-days
conversion on the Gregorian calendar). -/
def tsMonth (t : ℤ) : ℕ :=
  let z : ℤ := Int.fdiv t 86400 + 719468
  let era : ℤ := Int.fdiv z 146097
  let doe : ℤ := z - era * 146097
  let yoe : ℤ := Int.fdiv (doe - Int.fdiv doe 1460 + Int.fdiv doe 36524 - Int.fdiv doe 146096) 365
  let doy : ℤ := doe - (365 * yoe + Int.fdiv yoe 4 - Int.fdiv yoe 100)
  let mp : ℤ := Int.fdiv (5 * doy + 2) 153
  (mp + if mp < 10 then 3 else -9).toNat

/-- `np.sin(2 * np.pi * df['hour'] / 24)` (line 49). -/
noncomputable def hourSin (h : ℕ) : ℝ := Real.sin (2 * Real.pi * h / 24)

/-- `np.cos(2 * np.pi * df['hour'] / 24)` (line 50). -/
noncomputable def hourCos (h : ℕ) : ℝ := Real.cos (2 * Real.pi * h / 24)

/-- `np.sin(2 * np.pi * df['day_of_week'] / 7)` (line 51). -/
noncomputable def dowSin (d : ℕ) : ℝ := Real.sin (2 * Real.pi * d / 7)

/-- `np.cos(2 * np.pi * df['day_of_week'] / 7)` (line 52). -/
noncomputable def dowCos (d : ℕ) : ℝ := Real.cos (2 * Real.pi * d / 7)

/-- `np.sin(2 * np.pi * df['month'] / 12)` (line 53). -/
noncomputable def monthSin (m : ℕ) : ℝ := Real.sin (2 * Real.pi * m / 12)

/-- `np.cos(2 * np.pi * df['month'] / 12)` (line 54). -/
noncomputable def monthCos (m : ℕ) : ℝ := Real.cos (2 * Real.pi * m / 12)

/-! ## The table after imputation -/

/-- The table after time normalization and imputation, stored by column. -/
structure ImpTable where
  ts : List ℤ
  aqi : List (Option ℚ)
  co : List (Option ℚ)
  no : List (Option ℚ)
  no2 : List (Option ℚ)
  o3 : List (Option ℚ)
  so2 : List (Option ℚ)
  pm2_5 : List (Option ℚ)
  pm10 : List (Option ℚ)
  nh3 : List (Option ℚ)

/-- Sort the raw rows by timestamp and impute every pollutant column
(lines 22–41: the imputation loop runs over
`['aqi','co','no','no2','o3','so2','pm2_5','pm10','nh3']` and the
subsequent `ffill().bfill()` touches the same columns). -/
def imputeTable (rows : List RawRow) : ImpTable :=
  let s := timeNormalize rows
  { ts := s.map RawRow.ts
    aqi := imputeColumn (s.map RawRow.aqi)
    co := imputeColumn (s.map RawRow.co)
    no := imputeColumn (s.map RawRow.no)
    no2 := imputeColumn (s.map RawRow.no2)
    o3 := imputeColumn (s.map RawRow.o3)
    so2 := imputeColumn (s.map RawRow.so2)
    pm2_5 := imputeColumn (s.map RawRow.pm2_5)
    pm10 := imputeColumn (s.map RawRow.pm10)
    nh3 := imputeColumn (s.map RawRow.nh3) }

/-! ## Derived columns (lines 43–95) -/

/-- The channels that receive lag and rolling features, in source order
(line 60: `pollutants = ['pm2_5', 'pm10', 'co', 'o3', 'no2', 'so2']`). -/
def featurePollutants (t : ImpTable) : List (List (Option ℚ)) :=
  [t.pm2_5, t.pm10, t.co, t.o3, t.no2, t.so2]

/-- `lags = [1, 3, 24]` (line 61). -/
def lagList : List ℕ := [1, 3, 24]

/-- `windows = [3, 12, 24]` (line 69). -/
def windowList : List ℕ := [3, 12, 24]

/-- All 18 lag feature columns. -/
def lagColumns (t : ImpTable) : List (List (Option ℚ)) :=
  (featurePollutants t).flatMap fun c => lagList.map fun h => lagCol h c

/-- All 18 rolling-mean feature columns and the 18 sample variances
underlying the rolling-std columns (the std column is the elementwise
square root of the variance column, so it is null exactly where the
variance column is). -/
def rollQColumns (t : ImpTable) : List (List (Option ℚ)) :=
  (featurePollutants t).flatMap fun c =>
    windowList.flatMap fun w => [rollMeanCol w c, rollVarCol w c]

/-- The 18 rolling-std feature columns (real-valued). -/
noncomputable def rollStdColumns (t : ImpTable) : List (List (Option ℝ)) :=
  (featurePollutants t).flatMap fun c => windowList.map fun w => rollStdCol w c

/-- NaN-propagating addition, as pandas `df['no'] + df['no2']`. -/
def optAdd (a b : Option ℚ) : Option ℚ :=
  match a, b with
  | some x, some y => some (x + y)
  | _, _ => none

/-- NaN-propagating ratio with the `1e-6` guard of line 79, as pandas
`df['pm2_5'] / (df['pm10'] + 1e-6)`. -/
def optRatio (a b : Option ℚ) : Option ℚ :=
  match a, b with
  | some x, some y => some (x / (y + 1 / 1000000))
  | _, _ => none

/-- `df['no_x'] = df['no'] + df['no2']` (line 78). -/
def noXCol (t : ImpTable) : List (Option ℚ) := List.zipWith optAdd t.no t.no2

/-- `df['pm2_5_to_pm10_ratio'] = df['pm2_5'] / (df['pm10'] + 1e-6)` (line 79). -/
def ratioCol (t : ImpTable) : List (Option ℚ) :=
  List.zipWith optRatio t.pm2_5 t.pm10

/-- The three target columns (lines 83–85). -/
def targetColumns (t : ImpTable) : List (List (Option ℚ)) :=
  [targetCol 1 t.pm2_5, targetCol 6 t.pm2_5, targetCol 1 t.aqi]

/-- The six cyclic-encoding columns (lines 45–54); each entry is a pure
function of the row's timestamp and is never null. -/
noncomputable def cyclicColumns (t : ImpTable) : List (List (Option ℝ)) :=
  [t.ts.map fun x => some (hourSin (tsHour x)),
   t.ts.map fun x => some (hourCos (tsHour x)),
   t.ts.map fun x => some (dowSin (tsDow x)),
   t.ts.map fun x => some (dowCos (tsDow x)),
   t.ts.map fun x => some (monthSin (tsMonth x)),
   t.ts.map fun x => some (monthCos (tsMonth x))]

/-! ## dropna and the final table (lines 87–95) -/

/-- Every rational-valued nullable column of the table handed to `dropna`
(line 89): the nine imputed channels, the lag columns, the rolling
mean/variance columns, the two interaction columns and the three targets. -/
def qColumns (t : ImpTable) : List (List (Option ℚ)) :=
  [t.aqi, t.co, t.no, t.no2, t.o3, t.so2, t.pm2_5, t.pm10, t.nh3]
    ++ lagColumns t ++ rollQColumns t ++ [noXCol t, ratioCol t] ++ targetColumns t

/-- Every real-valued nullable column handed to `dropna`: the cyclic
encodings and the rolling-std columns. -/
noncomputable def rColumns (t : ImpTable) : List (List (Option ℝ)) :=
  cyclicColumns t ++ rollStdColumns t

/-- `df.dropna()` keeps row `i` exactly when no column is null there; the
timestamp column itself is total and never null. -/
noncomputable def rowRetained (t : ImpTable) (i : ℕ) : Bool :=
  ((qColumns t).all fun c => (c.getD i none).isSome) &&
    ((rColumns t).all fun c => (c.getD i none).isSome)

/-- The positions (in the sorted table) of the rows kept by `dropna`. -/
noncomputable def featureIndices (rows : List RawRow) : List ℕ :=
  (List.range (timeNormalize rows).length).filter (rowRetained (imputeTable rows))

/-- The final feature table: the retained rows of every column, plus the
integer primary key `timestamp_seconds` (line 95; timestamps are already
epoch seconds in this model). -/
structure FeatureTable where
  ts : List ℤ
  tsSeconds : List ℤ
  qCols : List (List (Option ℚ))
  rCols : List (List (Option ℝ))

/-- The whole `engineer_features` pipeline (lines 9–109): sort, impute,
derive, drop incomplete rows, attach the integer key. -/
noncomputable def engineer_features (rows : List RawRow) : FeatureTable :=
  let t := imputeTable rows
  let idx := featureIndices rows
  { ts := idx.map fun i => t.ts.getD i 0
    tsSeconds := idx.map fun i => t.ts.getD i 0
    qCols := (qColumns t).map fun c => idx.map fun i => c.getD i none
    rCols := (rColumns t).map fun c => idx.map fun i => c.getD i none }

/-! ## The column-name contract (train.py lines 56–67, app/api.py lines 53–64) -/

/-- The raw table's column names in order (`src/raw_ingestion.py`). -/
def rawTableColumns : List String :=
  ["timestamp", "aqi", "co", "no", "no2", "o3", "so2", "pm2_5", "pm10", "nh3"]

/-- The feature-channel names, in the order of line 60. -/
def featurePollutantNames : List String :=
  ["pm2_5", "pm10", "co", "o3", "no2", "so2"]

/-- The columns of the emitted feature table in construction order:
the raw columns (timestamp first after `reset_index`), the six cyclic
encodings (the intermediate `hour`, `day_of_week`, `month` columns are
dropped at line 56), the lag columns, the rolling columns, the interaction
columns, the target columns and `timestamp_seconds`. -/
def featureTableColumns : List String :=
  rawTableColumns
    ++ ["hour_sin", "hour_cos", "day_of_week_sin", "day_of_week_cos",
        "month_sin", "month_cos"]
    ++ (featurePollutantNames.flatMap fun c =>
        lagList.map fun h => c ++ "_lag_" ++ toString h ++ "h")
    ++ (featurePollutantNames.flatMap fun c =>
        windowList.flatMap fun w =>
          [c ++ "_roll_avg_" ++ toString w ++ "h",
           c ++ "_roll_std_" ++ toString w ++ "h"])
    ++ ["no_x", "pm2_5_to_pm10_ratio"]
    ++ ["pm2_5_target_1h", "pm2_5_target_6h", "aqi_target_1h"]
    ++ ["timestamp_seconds"]

/-- The list train.py saves to `feature_columns.json`:
`X = df.drop(columns=[c for c in ("aqi", "timestamp") if c in df.columns])`
followed by `X.columns.tolist()`. -/
def trainFeatureColumns : List String :=
  featureTableColumns.filter fun c => c ≠ "aqi" && c ≠ "timestamp"

/-! ## Helper lemmas -/

@[simp] lemma length_pandasShift (n : ℕ) (xs : List (Option ℚ)) :
    (pandasShift n xs).length = xs.length := by
  simp [pandasShift]; omega

@[simp] lemma length_pandasShiftNeg (n : ℕ) (xs : List (Option ℚ)) :
    (pandasShiftNeg n xs).length = xs.length := by
  simp [pandasShiftNeg]; omega

@[simp] lemma length_rollingAgg (f : List ℚ → ℚ) (w : ℕ) (xs : List (Option ℚ)) :
    (rollingAgg f w xs).length = xs.length := by
  simp [rollingAgg]

@[simp] lemma reduceOption_map_some (l : List ℚ) : (l.map some).reduceOption = l := by
  induction l with
  | nil => rfl
  | cons a t ih => simp [List.reduceOption_cons_of_some, ih]

lemma shift_clean_getD (xs : List ℚ) (n i : ℕ) (hi : i < xs.length) :
    (pandasShift n (xs.map some)).getD i none
      = if n ≤ i then some (xs.getD (i - n) 0) else none := by
  rw [List.getD_eq_getElem?_getD]
  simp only [pandasShift, List.getElem?_append, List.length_replicate, List.length_map,
    List.getElem?_replicate, List.getElem?_take, List.getElem?_map]
  by_cases h : n ≤ i
  · have h1 : ¬ i < min n xs.length := by omega
    have h2 : i - min n xs.length = i - n := by omega
    have h3 : i - n < xs.length - n := by omega
    have h4 : i - n < xs.length := by omega
    simp [h, h1, h2, h3, List.getElem?_eq_getElem h4,
      List.getD_eq_getElem?_getD, List.getElem?_eq_getElem h4]
  · have h1 : i < min n xs.length := by omega
    simp [h, h1]

lemma shiftNeg_clean_getD (xs : List ℚ) (n i : ℕ) :
    (pandasShiftNeg n (xs.map some)).getD i none
      = if i + n < xs.length then some (xs.getD (i + n) 0) else none := by
  rw [List.getD_eq_getElem?_getD]
  simp only [pandasShiftNeg, List.getElem?_append, List.length_drop, List.length_map,
    List.getElem?_replicate, List.getElem?_drop, List.getElem?_map]
  by_cases h : i + n < xs.length
  · have h1 : i < xs.length - n := by omega
    rw [if_pos h1, Nat.add_comm n i, List.getElem?_eq_getElem h]
    simp [h, List.getD_eq_getElem?_getD, List.getElem?_eq_getElem h]
  · have h1 : ¬ i < xs.length - n := by omega
    simp only [h1, if_false, h]
    split <;> simp

lemma rollingAgg_clean_getD (f : List ℚ → ℚ) (xs : List ℚ) (w i : ℕ)
    (hw : 0 < w) (hi : i < xs.length) :
    (rollingAgg f w (pandasShift 1 (xs.map some))).getD i none
      = if w ≤ i then some (f ((xs.drop (i - w)).take w)) else none := by
  have hlen : (pandasShift 1 (xs.map some)).length = xs.length := by simp
  have hpos : 0 < xs.length := by omega
  -- the shifted series is `none` followed by the first `length - 1` values
  have hshift : pandasShift 1 (xs.map some)
      = none :: (xs.take (xs.length - 1)).map some := by
    have h1 : (1 : ℕ) ⊓ xs.length = 1 := by omega
    simp [pandasShift, h1, List.map_take]
  rw [List.getD_eq_getElem?_getD, rollingAgg]
  rw [List.getElem?_map, List.getElem?_range (by simpa using hi)]
  simp only [Option.map_some', Option.getD_some]
  have htake : (pandasShift 1 (xs.map some)).take (i + 1)
      = none :: (xs.take i).map some := by
    rw [hshift, List.take_succ_cons, ← List.map_take, List.take_take,
      Nat.min_eq_left (by omega : i ≤ xs.length - 1)]
  rw [htake]
  by_cases h : w ≤ i
  · have hd : i + 1 - w = (i - w) + 1 := by omega
    rw [hd, List.drop_succ_cons, ← List.map_drop, reduceOption_map_some,
      List.drop_take]
    have hwin : i - (i - w) = w := by omega
    rw [hwin]
    have hlenwin : ((xs.drop (i - w)).take w).length = w := by
      simp; omega
    simp [h, hlenwin]
  · have hd : i + 1 - w = 0 := by omega
    rw [hd, List.drop_zero]
    rw [List.reduceOption_cons_of_none, reduceOption_map_some]
    have hlenwin : (xs.take i).length = i := by simp; omega
    rw [hlenwin]
    simp [h]

/-! ## Imputation lemmas -/

@[simp] lemma length_ffillGo (acc : Option ℚ) (l : List (Option ℚ)) :
    (ffillGo acc l).length = l.length := by
  induction l generalizing acc with
  | nil => rfl
  | cons a t ih => cases a <;> simp [ffillGo, ih]

@[simp] lemma length_ffillCol (l : List (Option ℚ)) : (ffillCol l).length = l.length := by
  simp [ffillCol]

@[simp] lemma length_bfillCol (l : List (Option ℚ)) : (bfillCol l).length = l.length := by
  simp [bfillCol]

@[simp] lemma length_interpolateLinear (l : List (Option ℚ)) :
    (interpolateLinear l).length = l.length := by
  simp [interpolateLinear]

@[simp] lemma length_imputeColumn (c : List (Option ℚ)) :
    (imputeColumn c).length = c.length := by
  unfold imputeColumn
  split <;> simp

lemma ffillGo_of_allSome (acc : Option ℚ) (l : List (Option ℚ))
    (h : ∀ x ∈ l, x.isSome) : ffillGo acc l = l := by
  induction l generalizing acc with
  | nil => rfl
  | cons a t ih =>
    cases a with
    | none => exact absurd (h none (by simp)) (by simp)
    | some v => simp [ffillGo, ih (some v) (fun x hx => h x (by simp [hx]))]

lemma ffillGo_replicate_none (acc : Option ℚ) (n : ℕ) :
    ffillGo acc (List.replicate n none) = List.replicate n acc := by
  induction n generalizing acc with
  | zero => rfl
  | succ k ih => simp [List.replicate_succ, ffillGo, ih]

lemma ffillCol_of_allSome (l : List (Option ℚ)) (h : ∀ x ∈ l, x.isSome) :
    ffillCol l = l := ffillGo_of_allSome none l h

lemma bfillCol_of_allSome (l : List (Option ℚ)) (h : ∀ x ∈ l, x.isSome) :
    bfillCol l = l := by
  rw [bfillCol, ffillGo_of_allSome _ _ (fun x hx => h x (List.mem_reverse.mp hx)),
    List.reverse_reverse]

lemma getD_none_of_allNone (xs : List (Option ℚ)) (h : ∀ x ∈ xs, x = none) (i : ℕ) :
    xs.getD i none = none := by
  rcases Nat.lt_or_ge i xs.length with hlt | hge
  · rw [List.getD_eq_getElem?_getD, List.getElem?_eq_getElem hlt]
    exact h _ (List.getElem_mem hlt)
  · rw [List.getD_eq_getElem?_getD, List.getElem?_eq_none hge]
    rfl

lemma interpCombine_isSome (i : ℕ) (b a : Option (ℕ × ℚ))
    (h : b.isSome ∨ a.isSome) : (interpCombine i b a).isSome := by
  rcases b with _ | ⟨j, vj⟩ <;> rcases a with _ | ⟨k, vk⟩ <;>
    simp_all [interpCombine]

/-- A null entry whose column holds at least one valid value is filled by
`interpolate(method='linear', limit_direction='both')`. -/
lemma interpAt_isSome (xs : List (Option ℚ)) (i j : ℕ) (hj : j < xs.length)
    (hv : (xs.getD j none).isSome) : (interpAt xs i).isSome := by
  obtain ⟨v, hvv⟩ := Option.isSome_iff_exists.mp hv
  unfold interpAt
  cases hx : xs.getD i none with
  | some w => simp
  | none =>
    apply interpCombine_isSome
    rcases Nat.lt_trichotomy j i with hji | rfl | hij
    · left
      have hmem : (j, v) ∈ (List.range i).filterMap
          (fun j => (xs.getD j none).map fun v => (j, v)) := by
        rw [List.mem_filterMap]
        exact ⟨j, List.mem_range.mpr hji, by rw [hvv]; rfl⟩
      rw [Option.isSome_iff_ne_none, Ne, List.getLast?_eq_none_iff]
      exact List.ne_nil_of_mem hmem
    · rw [hvv] at hx
      exact absurd hx (by simp)
    · right
      have hmem : (j, v) ∈ (List.range' (i + 1) (xs.length - (i + 1))).filterMap
          (fun k => (xs.getD k none).map fun v => (k, v)) := by
        rw [List.mem_filterMap]
        refine ⟨j, List.mem_range'_1.mpr ⟨by omega, by omega⟩, by rw [hvv]; rfl⟩
      rw [Option.isSome_iff_ne_none, Ne, List.head?_eq_none_iff]
      exact List.ne_nil_of_mem hmem

lemma interpolateLinear_allSome (xs : List (Option ℚ)) (j : ℕ) (hj : j < xs.length)
    (hv : (xs.getD j none).isSome) : ∀ y ∈ interpolateLinear xs, y.isSome := by
  intro y hy
  rw [interpolateLinear, List.mem_map] at hy
  obtain ⟨i, _, rfl⟩ := hy
  exact interpAt_isSome xs i j hj hv

/-- A channel with at least one valid value is completely filled by the
imputation stage. -/
lemma imputeColumn_allSome (c : List (Option ℚ)) (h : ∃ x ∈ c, x.isSome) :
    ∀ y ∈ imputeColumn c, y.isSome := by
  obtain ⟨x, hx, hxs⟩ := h
  obtain ⟨j, hj, hxj⟩ := List.mem_iff_getElem.mp hx
  have hv : (c.getD j none).isSome := by
    rw [List.getD_eq_getElem?_getD, List.getElem?_eq_getElem hj, hxj]
    exact hxs
  unfold imputeColumn
  split
  · have hall := interpolateLinear_allSome c j hj hv
    rw [ffillCol_of_allSome _ hall, bfillCol_of_allSome _ hall]
    exact hall
  · next hfalse =>
    have hall : ∀ x ∈ c, x.isSome := by
      intro x hx
      by_contra hns
      exact hfalse (List.any_eq_true.mpr ⟨x, hx, by simpa [Option.isNone_iff_eq_none] using hns⟩)
    rw [ffillCol_of_allSome _ hall, bfillCol_of_allSome _ hall]
    exact hall

lemma interpAt_allNone (xs : List (Option ℚ)) (h : ∀ x ∈ xs, x = none) (i : ℕ) :
    interpAt xs i = none := by
  have hx := getD_none_of_allNone xs h
  unfold interpAt
  rw [hx i]
  have hbefore : (List.range i).filterMap
      (fun j => (xs.getD j none).map fun v => (j, v)) = [] := by
    rw [List.filterMap_eq_nil_iff]
    intro j _
    rw [hx j]
    rfl
  have hafter : (List.range' (i + 1) (xs.length - (i + 1))).filterMap
      (fun k => (xs.getD k none).map fun v => (k, v)) = [] := by
    rw [List.filterMap_eq_nil_iff]
    intro k _
    rw [hx k]
    rfl
  rw [hbefore, hafter]
  rfl

/-- A channel with no valid value at all passes through the whole imputation
stage unchanged: interpolation, forward fill and backward fill each leave it
entirely null. -/
lemma imputeColumn_allNone (c : List (Option ℚ)) (h : ∀ x ∈ c, x = none) :
    imputeColumn c = c := by
  have hrep : c = List.replicate c.length none := List.eq_replicate_of_mem h
  have hinterp : interpolateLinear c = c := by
    rw [interpolateLinear,
      List.map_congr_left (fun i _ => interpAt_allNone c h i)]
    conv_rhs => rw [hrep]
    simp
  have hfb : bfillCol (ffillCol c) = c := by
    conv_lhs => rw [hrep]
    rw [ffillCol, ffillGo_replicate_none, bfillCol, List.reverse_replicate,
      ffillGo_replicate_none, List.reverse_replicate]
    exact hrep.symm
  unfold imputeColumn
  split
  · rw [hinterp]
    exact hfb
  · exact hfb

lemma imputeColumn_map_some (l : List ℚ) : imputeColumn (l.map some) = l.map some := by
  have hall : ∀ x ∈ l.map some, x.isSome := by simp
  have hany : (l.map some).any (fun x => x.isNone) = false := by
    simp
  rw [imputeColumn, hany]
  simp only [Bool.false_eq_true, if_false, ffillCol, bfillCol]
  rw [ffillGo_of_allSome _ _ hall]
  rw [← List.map_reverse, ffillGo_of_allSome _ _ (by simp), List.map_reverse,
    List.reverse_reverse]

/-! ## Null patterns of the derived columns over fully-valid channels -/

lemma exists_clean_col (c : List (Option ℚ)) (h : ∀ x ∈ c, x.isSome) :
    ∃ xs : List ℚ, c = xs.map some := by
  induction c with
  | nil => exact ⟨[], rfl⟩
  | cons a t ih =>
    obtain ⟨v, rfl⟩ := Option.isSome_iff_exists.mp (h a (by simp))
    obtain ⟨xs, hxs⟩ := ih (fun x hx => h x (by simp [hx]))
    exact ⟨v :: xs, by simp [hxs]⟩

lemma clean_getD_isSome (X : List ℚ) (i : ℕ) (hi : i < X.length) :
    ((X.map some).getD i none).isSome = true := by
  simp [List.getD_eq_getElem?_getD, List.getElem?_map, List.getElem?_eq_getElem hi]

lemma lag_isSome (X : List ℚ) (h i : ℕ) (hi : i < X.length) :
    ((lagCol h (X.map some)).getD i none).isSome = decide (h ≤ i) := by
  rw [lagCol, shift_clean_getD X h i hi]
  by_cases hle : h ≤ i <;> simp [hle]

lemma rollMean_isSome (X : List ℚ) (w i : ℕ) (hw : 0 < w) (hi : i < X.length) :
    ((rollMeanCol w (X.map some)).getD i none).isSome = decide (w ≤ i) := by
  rw [rollMeanCol, rollingAgg_clean_getD listMean X w i hw hi]
  by_cases hle : w ≤ i <;> simp [hle]

lemma rollVar_isSome (X : List ℚ) (w i : ℕ) (hw : 0 < w) (hi : i < X.length) :
    ((rollVarCol w (X.map some)).getD i none).isSome = decide (w ≤ i) := by
  rw [rollVarCol, rollingAgg_clean_getD listVar X w i hw hi]
  by_cases hle : w ≤ i <;> simp [hle]

lemma getD_map_isSome (l : List (Option ℚ)) (g : ℚ → ℝ) (i : ℕ) :
    ((l.map (Option.map g)).getD i none).isSome = ((l.getD i none)).isSome := by
  rw [List.getD_eq_getElem?_getD, List.getD_eq_getElem?_getD, List.getElem?_map]
  cases h : l[i]? with
  | none => rfl
  | some o => cases o <;> rfl

lemma rollStd_isSome (X : List ℚ) (w i : ℕ) (hw : 0 < w) (hi : i < X.length) :
    ((rollStdCol w (X.map some)).getD i none).isSome = decide (w ≤ i) := by
  rw [rollStdCol, getD_map_isSome, rollVar_isSome X w i hw hi]

lemma target_isSome (X : List ℚ) (H i : ℕ) :
    ((targetCol H (X.map some)).getD i none).isSome = decide (i + H < X.length) := by
  rw [targetCol, shiftNeg_clean_getD X H i]
  by_cases hle : i + H < X.length <;> simp [hle]

lemma zip_clean_isSome (f : Option ℚ → Option ℚ → Option ℚ)
    (hf : ∀ x y : ℚ, (f (some x) (some y)).isSome)
    (a b : List ℚ) (i : ℕ) (hia : i < a.length) (hib : i < b.length) :
    ((List.zipWith f (a.map some) (b.map some)).getD i none).isSome = true := by
  have hlen : i < (List.zipWith f (a.map some) (b.map some)).length := by
    simp [List.length_zipWith]
    omega
  rw [List.getD_eq_getElem?_getD, List.getElem?_eq_getElem hlen]
  simp only [List.getElem_zipWith, List.getElem_map, Option.getD_some]
  exact hf _ _

lemma mapfn_isSome (g : ℤ → ℝ) (l : List ℤ) (i : ℕ) (hi : i < l.length) :
    (((l.map fun x => some (g x)).getD i none)).isSome = true := by
  have hlen : i < (l.map fun x => some (g x)).length := by simpa using hi
  rw [List.getD_eq_getElem?_getD, List.getElem?_eq_getElem hlen]
  simp

lemma all_lag_isSome (X : List ℚ) (i : ℕ) (hi : i < X.length) :
    ((lagList.map fun h => lagCol h (X.map some)).all
      fun c => (c.getD i none).isSome) = decide (24 ≤ i) := by
  simp only [lagList, List.map_cons, List.map_nil, List.all_cons, List.all_nil,
    Bool.and_true]
  rw [lag_isSome X 1 i hi, lag_isSome X 3 i hi, lag_isSome X 24 i hi]
  by_cases h24 : 24 ≤ i
  · have h1 : 1 ≤ i := by omega
    have h3 : 3 ≤ i := by omega
    simp [h1, h3, h24]
  · simp [h24]

lemma all_roll_isSome (X : List ℚ) (i : ℕ) (hi : i < X.length) :
    ((windowList.flatMap fun w => [rollMeanCol w (X.map some), rollVarCol w (X.map some)]).all
      fun c => (c.getD i none).isSome) = decide (24 ≤ i) := by
  simp only [windowList, List.flatMap_cons, List.flatMap_nil, List.all_append,
    List.all_cons, List.all_nil, List.append_nil, Bool.and_true]
  rw [rollMean_isSome X 3 i (by omega) hi, rollVar_isSome X 3 i (by omega) hi,
    rollMean_isSome X 12 i (by omega) hi, rollVar_isSome X 12 i (by omega) hi,
    rollMean_isSome X 24 i (by omega) hi, rollVar_isSome X 24 i (by omega) hi]
  by_cases h24 : 24 ≤ i
  · have h3 : 3 ≤ i := by omega
    have h12 : 12 ≤ i := by omega
    simp [h3, h12, h24]
  · simp [h24]

lemma all_std_isSome (X : List ℚ) (i : ℕ) (hi : i < X.length) :
    ((windowList.map fun w => rollStdCol w (X.map some)).all
      fun c => (c.getD i none).isSome) = decide (24 ≤ i) := by
  simp only [windowList, List.map_cons, List.map_nil, List.all_cons, List.all_nil,
    Bool.and_true]
  rw [rollStd_isSome X 3 i (by omega) hi, rollStd_isSome X 12 i (by omega) hi,
    rollStd_isSome X 24 i (by omega) hi]
  by_cases h24 : 24 ≤ i
  · have h3 : 3 ≤ i := by omega
    have h12 : 12 ≤ i := by omega
    simp [h3, h12, h24]
  · simp [h24]

/-- Over a table whose nine channels are fully valid, `dropna` keeps row `i`
exactly when the full 24-step lag/window history and the 6-step-ahead target
are available. -/
lemma rowRetained_clean (t : ImpTable) (n : ℕ)
    (A C N N2 Ov S P P10 H3 : List ℚ)
    (hts : t.ts.length = n)
    (hA : t.aqi = A.map some) (hAl : A.length = n)
    (hC : t.co = C.map some) (hCl : C.length = n)
    (hN : t.no = N.map some) (hNl : N.length = n)
    (hN2 : t.no2 = N2.map some) (hN2l : N2.length = n)
    (hO : t.o3 = Ov.map some) (hOl : Ov.length = n)
    (hS : t.so2 = S.map some) (hSl : S.length = n)
    (hP : t.pm2_5 = P.map some) (hPl : P.length = n)
    (hP10 : t.pm10 = P10.map some) (hP10l : P10.length = n)
    (hH : t.nh3 = H3.map some) (hHl : H3.length = n)
    (i : ℕ) (hi : i < n) :
    rowRetained t i = decide (24 ≤ i ∧ i + 6 < n) := by
  unfold rowRetained qColumns rColumns lagColumns rollQColumns targetColumns
    cyclicColumns rollStdColumns featurePollutants noXCol ratioCol
  rw [hA, hC, hN, hN2, hO, hS, hP, hP10, hH]
  simp only [List.all_append, List.all_cons, List.all_nil, List.flatMap_cons,
    List.flatMap_nil, List.append_nil, Bool.and_true]
  rw [clean_getD_isSome A i (by omega), clean_getD_isSome C i (by omega),
    clean_getD_isSome N i (by omega), clean_getD_isSome N2 i (by omega),
    clean_getD_isSome Ov i (by omega), clean_getD_isSome S i (by omega),
    clean_getD_isSome P i (by omega), clean_getD_isSome P10 i (by omega),
    clean_getD_isSome H3 i (by omega)]
  rw [all_lag_isSome P i (by omega), all_lag_isSome P10 i (by omega),
    all_lag_isSome C i (by omega), all_lag_isSome Ov i (by omega),
    all_lag_isSome N2 i (by omega), all_lag_isSome S i (by omega)]
  rw [all_roll_isSome P i (by omega), all_roll_isSome P10 i (by omega),
    all_roll_isSome C i (by omega), all_roll_isSome Ov i (by omega),
    all_roll_isSome N2 i (by omega), all_roll_isSome S i (by omega)]
  rw [all_std_isSome P i (by omega), all_std_isSome P10 i (by omega),
    all_std_isSome C i (by omega), all_std_isSome Ov i (by omega),
    all_std_isSome N2 i (by omega), all_std_isSome S i (by omega)]
  rw [zip_clean_isSome optAdd (fun x y => rfl) N N2 i (by omega) (by omega),
    zip_clean_isSome optRatio (fun x y => rfl) P P10 i (by omega) (by omega)]
  rw [target_isSome P 1 i, target_isSome P 6 i, target_isSome A 1 i, hPl, hAl]
  rw [mapfn_isSome _ t.ts i (by omega), mapfn_isSome _ t.ts i (by omega),
    mapfn_isSome _ t.ts i (by omega), mapfn_isSome _ t.ts i (by omega),
    mapfn_isSome _ t.ts i (by omega), mapfn_isSome _ t.ts i (by omega)]
  by_cases h24 : 24 ≤ i
  · by_cases h6 : i + 6 < n
    · have h1 : i + 1 < n := by omega
      simp [h24, h6, h1]
    · simp [h24, h6]
  · simp [h24]

lemma range_filter_window (a m : ℕ) :
    ∀ n : ℕ, (List.range n).filter (fun i => decide (a ≤ i) && decide (i < m))
      = List.range' a (min m n - a) := by
  intro n
  induction n with
  | zero => simp
  | succ k ih =>
    rw [List.range_succ, List.filter_append, ih]
    by_cases hm : k < m
    · by_cases ha : a ≤ k
      · have h1 : min m (k + 1) = k + 1 := by omega
        have h2 : min m k = k := by omega
        simp only [h1, h2, List.filter_cons, List.filter_nil, ha, hm,
          decide_True, Bool.and_self, if_true]
        have h3 : k + 1 - a = (k - a) + 1 := by omega
        rw [h3, List.range'_concat]
        have h4 : a + 1 * (k - a) = k := by omega
        rw [h4]
      · have h1 : min m (k + 1) - a = 0 := by omega
        have h2 : min m k - a = 0 := by omega
        simp [h1, h2, ha]
    · have h1 : min m (k + 1) = min m k := by omega
      simp [h1, hm]

lemma imputeTable_ts (rows : List RawRow) :
    (imputeTable rows).ts = (timeNormalize rows).map RawRow.ts := rfl

lemma imputeTable_aqi (rows : List RawRow) :
    (imputeTable rows).aqi = imputeColumn ((timeNormalize rows).map RawRow.aqi) := rfl

lemma imputeTable_co (rows : List RawRow) :
    (imputeTable rows).co = imputeColumn ((timeNormalize rows).map RawRow.co) := rfl

lemma imputeTable_no (rows : List RawRow) :
    (imputeTable rows).no = imputeColumn ((timeNormalize rows).map RawRow.no) := rfl

lemma imputeTable_no2 (rows : List RawRow) :
    (imputeTable rows).no2 = imputeColumn ((timeNormalize rows).map RawRow.no2) := rfl

lemma imputeTable_o3 (rows : List RawRow) :
    (imputeTable rows).o3 = imputeColumn ((timeNormalize rows).map RawRow.o3) := rfl

lemma imputeTable_so2 (rows : List RawRow) :
    (imputeTable rows).so2 = imputeColumn ((timeNormalize rows).map RawRow.so2) := rfl

lemma imputeTable_pm2_5 (rows : List RawRow) :
    (imputeTable rows).pm2_5 = imputeColumn ((timeNormalize rows).map RawRow.pm2_5) := rfl

lemma imputeTable_pm10 (rows : List RawRow) :
    (imputeTable rows).pm10 = imputeColumn ((timeNormalize rows).map RawRow.pm10) := rfl

lemma imputeTable_nh3 (rows : List RawRow) :
    (imputeTable rows).nh3 = imputeColumn ((timeNormalize rows).map RawRow.nh3) := rfl

lemma nat_lt_sub_six (i n : ℕ) : i + 6 < n ↔ i < n - 6 := by omega

/-- Over a raw table with fully-valid channels, `dropna` keeps row `i` of
the sorted table exactly when `24 ≤ i` and `i + 6 < n`. -/
lemma retained_char (rows : List RawRow)
    (hval : ∀ r ∈ rows, r.aqi.isSome ∧ r.co.isSome ∧ r.no.isSome ∧ r.no2.isSome ∧
      r.o3.isSome ∧ r.so2.isSome ∧ r.pm2_5.isSome ∧ r.pm10.isSome ∧ r.nh3.isSome) :
    ∀ i ∈ List.range (timeNormalize rows).length,
      rowRetained (imputeTable rows) i
        = (decide (24 ≤ i) && decide (i < rows.length - 6)) := by
  have hperm : List.Perm (timeNormalize rows) rows := List.perm_insertionSort tsLE rows
  have hsortlen : (timeNormalize rows).length = rows.length := hperm.length_eq
  have hvalS : ∀ r ∈ timeNormalize rows, r.aqi.isSome ∧ r.co.isSome ∧ r.no.isSome ∧
      r.no2.isSome ∧ r.o3.isSome ∧ r.so2.isSome ∧ r.pm2_5.isSome ∧ r.pm10.isSome ∧
      r.nh3.isSome :=
    fun r hr => hval r (hperm.mem_iff.mp hr)
  obtain ⟨A, hA⟩ := exists_clean_col ((timeNormalize rows).map RawRow.aqi)
    (by
      intro x hx
      obtain ⟨r, hr, rfl⟩ := List.mem_map.mp hx
      exact (hvalS r hr).1)
  obtain ⟨C, hC⟩ := exists_clean_col ((timeNormalize rows).map RawRow.co)
    (by
      intro x hx
      obtain ⟨r, hr, rfl⟩ := List.mem_map.mp hx
      exact (hvalS r hr).2.1)
  obtain ⟨N, hN⟩ := exists_clean_col ((timeNormalize rows).map RawRow.no)
    (by
      intro x hx
      obtain ⟨r, hr, rfl⟩ := List.mem_map.mp hx
      exact (hvalS r hr).2.2.1)
  obtain ⟨N2, hN2⟩ := exists_clean_col ((timeNormalize rows).map RawRow.no2)
    (by
      intro x hx
      obtain ⟨r, hr, rfl⟩ := List.mem_map.mp hx
      exact (hvalS r hr).2.2.2.1)
  obtain ⟨Ov, hO⟩ := exists_clean_col ((timeNormalize rows).map RawRow.o3)
    (by
      intro x hx
      obtain ⟨r, hr, rfl⟩ := List.mem_map.mp hx
      exact (hvalS r hr).2.2.2.2.1)
  obtain ⟨S, hS⟩ := exists_clean_col ((timeNormalize rows).map RawRow.so2)
    (by
      intro x hx
      obtain ⟨r, hr, rfl⟩ := List.mem_map.mp hx
      exact (hvalS r hr).2.2.2.2.2.1)
  obtain ⟨P, hP⟩ := exists_clean_col ((timeNormalize rows).map RawRow.pm2_5)
    (by
      intro x hx
      obtain ⟨r, hr, rfl⟩ := List.mem_map.mp hx
      exact (hvalS r hr).2.2.2.2.2.2.1)
  obtain ⟨P10, hP10⟩ := exists_clean_col ((timeNormalize rows).map RawRow.pm10)
    (by
      intro x hx
      obtain ⟨r, hr, rfl⟩ := List.mem_map.mp hx
      exact (hvalS r hr).2.2.2.2.2.2.2.1)
  obtain ⟨H3, hH⟩ := exists_clean_col ((timeNormalize rows).map RawRow.nh3)
    (by
      intro x hx
      obtain ⟨r, hr, rfl⟩ := List.mem_map.mp hx
      exact (hvalS r hr).2.2.2.2.2.2.2.2)
  have hAl : A.length = rows.length := by
    have := congrArg List.length hA
    simpa [hsortlen] using this.symm
  have hCl : C.length = rows.length := by
    have := congrArg List.length hC
    simpa [hsortlen] using this.symm
  have hNl : N.length = rows.length := by
    have := congrArg List.length hN
    simpa [hsortlen] using this.symm
  have hN2l : N2.length = rows.length := by
    have := congrArg List.length hN2
    simpa [hsortlen] using this.symm
  have hOl : Ov.length = rows.length := by
    have := congrArg List.length hO
    simpa [hsortlen] using this.symm
  have hSl : S.length = rows.length := by
    have := congrArg List.length hS
    simpa [hsortlen] using this.symm
  have hPl : P.length = rows.length := by
    have := congrArg List.length hP
    simpa [hsortlen] using this.symm
  have hP10l : P10.length = rows.length := by
    have := congrArg List.length hP10
    simpa [hsortlen] using this.symm
  have hHl : H3.length = rows.length := by
    have := congrArg List.length hH
    simpa [hsortlen] using this.symm
  have hts : (imputeTable rows).ts.length = rows.length := by
    rw [imputeTable_ts, List.length_map, hsortlen]
  have e1 : (imputeTable rows).aqi = A.map some := by
    rw [imputeTable_aqi, hA, imputeColumn_map_some]
  have e2 : (imputeTable rows).co = C.map some := by
    rw [imputeTable_co, hC, imputeColumn_map_some]
  have e3 : (imputeTable rows).no = N.map some := by
    rw [imputeTable_no, hN, imputeColumn_map_some]
  have e4 : (imputeTable rows).no2 = N2.map some := by
    rw [imputeTable_no2, hN2, imputeColumn_map_some]
  have e5 : (imputeTable rows).o3 = Ov.map some := by
    rw [imputeTable_o3, hO, imputeColumn_map_some]
  have e6 : (imputeTable rows).so2 = S.map some := by
    rw [imputeTable_so2, hS, imputeColumn_map_some]
  have e7 : (imputeTable rows).pm2_5 = P.map some := by
    rw [imputeTable_pm2_5, hP, imputeColumn_map_some]
  have e8 : (imputeTable rows).pm10 = P10.map some := by
    rw [imputeTable_pm10, hP10, imputeColumn_map_some]
  have e9 : (imputeTable rows).nh3 = H3.map some := by
    rw [imputeTable_nh3, hH, imputeColumn_map_some]
  intro i hiMem
  have hi : i < rows.length := by
    rw [← hsortlen]
    exact List.mem_range.mp hiMem
  have hrc := rowRetained_clean (imputeTable rows) rows.length A C N N2 Ov S P P10 H3
    hts e1 hAl e2 hCl e3 hNl e4 hN2l e5 hOl e6 hSl e7 hPl e8 hP10l e9 hHl i hi
  rw [hrc, Bool.decide_and]
  congr 1
  exact decide_eq_decide.mpr (nat_lt_sub_six i rows.length)

/-- Positions kept by `dropna` for a raw table with fully-valid channels:
exactly positions `24` through `n - 7` of the sorted table. -/
lemma featureIndices_clean (rows : List RawRow)
    (hval : ∀ r ∈ rows, r.aqi.isSome ∧ r.co.isSome ∧ r.no.isSome ∧ r.no2.isSome ∧
      r.o3.isSome ∧ r.so2.isSome ∧ r.pm2_5.isSome ∧ r.pm10.isSome ∧ r.nh3.isSome) :
    featureIndices rows = List.range' 24 (rows.length - 30) := by
  have hsortlen : (timeNormalize rows).length = rows.length :=
    (List.perm_insertionSort tsLE rows).length_eq
  rw [featureIndices, List.filter_congr (retained_char rows hval), hsortlen,
    range_filter_window 24 (rows.length - 6) rows.length,
    Nat.min_eq_left (Nat.sub_le rows.length 6), Nat.sub_sub]

lemma getD_map_option (l : List (Option ℚ)) (g : ℚ → ℝ) (i : ℕ) :
    (l.map (Option.map g)).getD i none = Option.map g (l.getD i none) := by
  rw [List.getD_eq_getElem?_getD, List.getD_eq_getElem?_getD, List.getElem?_map]
  cases l[i]? <;> rfl

/-! ## Claims -/

/-- C6: for every imputed channel, horizon `h ∈ {1, 3, 24}` and row index
`i`, the lag feature at row `i` equals the channel's value at position
`i - h` (by position in the sorted sequence) when `h ≤ i`, and is null when
`i < h`; in particular for hourly `pm2_5 = [10, 20, 30, 40, 50]` the lag-1
feature at position 4 equals 40 (see the witness). -/
theorem claim_C6_lag (xs : List ℚ) (h i : ℕ) (hmem : h ∈ lagList)
    (hi : i < xs.length) :
    (lagCol h (xs.map some)).getD i none
      = if h ≤ i then some (xs.getD (i - h) 0) else none :=
  shift_clean_getD xs h i hi

theorem claim_C6_lag_witness :
    (lagCol 1 (([10, 20, 30, 40, 50] : List ℚ).map some)).getD 4 none = some 40 := by
  have h := claim_C6_lag [10, 20, 30, 40, 50] 1 4 (by decide) (by decide)
  rw [h]
  decide

/-- C7: for every imputed channel, forward horizon `H ∈ {1, 6}` and row
index `i`, the target column at row `i` equals the channel's value at
position `i + H` when that row exists, and is null otherwise; in particular
for hourly `pm2_5 = [10, 20, 30, 40, 50]` the 1-hour target at position 3
equals 50 (see the witness). -/
theorem claim_C7_target (xs : List ℚ) (H i : ℕ) (hmem : H ∈ ([1, 6] : List ℕ))
    (hi : i < xs.length) :
    (targetCol H (xs.map some)).getD i none
      = if i + H < xs.length then some (xs.getD (i + H) 0) else none :=
  shiftNeg_clean_getD xs H i

theorem claim_C7_target_witness :
    (targetCol 1 (([10, 20, 30, 40, 50] : List ℚ).map some)).getD 3 none = some 50 := by
  have h := claim_C7_target [10, 20, 30, 40, 50] 1 3 (by decide) (by decide)
  rw [h]
  decide

/-- C5: for every imputed channel, window `w ∈ {3, 12, 24}` and row index
`i`, the rolling mean (resp. standard deviation) feature at row `i` equals
the mean (resp. sample standard deviation) of the channel's values at
positions `i - w` through `i - 1` when all `w` of those rows exist
(`w ≤ i`), and is null otherwise (full-window policy); in particular for
hourly `pm2_5 = [10, 20, 30, 40, 50]` the window-3 rolling mean at position
4 equals 30 (see the witness). -/
theorem claim_C5_rolling (xs : List ℚ) (w i : ℕ) (hmem : w ∈ windowList)
    (hi : i < xs.length) :
    ((rollMeanCol w (xs.map some)).getD i none
        = if w ≤ i then some (listMean ((xs.drop (i - w)).take w)) else none)
      ∧ ((rollStdCol w (xs.map some)).getD i none
        = if w ≤ i then
            some (Real.sqrt ((listVar ((xs.drop (i - w)).take w) : ℚ) : ℝ))
          else none) := by
  have hw : 0 < w := by
    simp only [windowList, List.mem_cons, List.not_mem_nil, or_false] at hmem
    rcases hmem with rfl | rfl | rfl <;> omega
  constructor
  · rw [rollMeanCol]
    exact rollingAgg_clean_getD listMean xs w i hw hi
  · rw [rollStdCol, getD_map_option, rollVarCol,
      rollingAgg_clean_getD listVar xs w i hw hi]
    by_cases hle : w ≤ i <;> simp [hle]

theorem claim_C5_rolling_witness :
    (rollMeanCol 3 (([10, 20, 30, 40, 50] : List ℚ).map some)).getD 4 none
      = some 30 := by
  have h := (claim_C5_rolling [10, 20, 30, 40, 50] 3 4 (by decide) (by decide)).1
  rw [h]
  norm_num [listMean]

lemma getD_out_of_range (l : List (Option ℚ)) (i : ℕ) (h : l.length ≤ i) :
    l.getD i none = none := by
  rw [List.getD_eq_getElem?_getD, List.getElem?_eq_none h]
  rfl

lemma getD_prefix_eq (xs ys : List ℚ) (i j : ℕ) (hj : j < i)
    (hpre : xs.take i = ys.take i) : xs.getD j 0 = ys.getD j 0 := by
  have hx : xs[j]? = (xs.take i)[j]? := by rw [List.getElem?_take]; simp [hj]
  have hy : ys[j]? = (ys.take i)[j]? := by rw [List.getElem?_take]; simp [hj]
  rw [List.getD_eq_getElem?_getD, List.getD_eq_getElem?_getD, hx, hy, hpre]

lemma window_prefix_eq (xs ys : List ℚ) (i w : ℕ) (hw : w ≤ i)
    (hpre : xs.take i = ys.take i) :
    (xs.drop (i - w)).take w = (ys.drop (i - w)).take w := by
  have key : ∀ zs : List ℚ, (zs.take i).drop (i - w) = (zs.drop (i - w)).take w := by
    intro zs
    rw [List.drop_take]
    congr 1
    omega
  rw [← key xs, ← key ys, hpre]

/-- C1 (amended): as a function of the imputed table, the lag and rolling
features at row `i` depend only on rows strictly before `i`: whenever two
imputed channels of equal length agree at every position `< i`, every lag
feature (`h ∈ {1, 3, 24}`) and every rolling mean/std feature
(`w ∈ {3, 12, 24}`) takes the same value at row `i` on both.  As a function
of the raw table the claim fails, because the imputation stage itself reads
rows `≥ i` when filling nulls (see the counterexample). -/
theorem claim_C1_causal (xs ys : List ℚ) (i h w : ℕ)
    (hh : h ∈ lagList) (hw : w ∈ windowList)
    (hlen : xs.length = ys.length) (hpre : xs.take i = ys.take i) :
    (lagCol h (xs.map some)).getD i none = (lagCol h (ys.map some)).getD i none
      ∧ (rollMeanCol w (xs.map some)).getD i none
          = (rollMeanCol w (ys.map some)).getD i none
      ∧ (rollStdCol w (xs.map some)).getD i none
          = (rollStdCol w (ys.map some)).getD i none := by
  have hw0 : 0 < w := by
    simp only [windowList, List.mem_cons, List.not_mem_nil, or_false] at hw
    rcases hw with rfl | rfl | rfl <;> omega
  by_cases hi : i < xs.length
  · have hi2 : i < ys.length := hlen ▸ hi
    refine ⟨?_, ?_, ?_⟩
    · rw [lagCol, lagCol, shift_clean_getD xs h i hi, shift_clean_getD ys h i hi2]
      by_cases hle : h ≤ i
      · simp only [hle, if_true]
        rw [getD_prefix_eq xs ys i (i - h) (by
          simp only [lagList, List.mem_cons, List.not_mem_nil, or_false] at hh
          rcases hh with rfl | rfl | rfl <;> omega) hpre]
      · simp [hle]
    · rw [rollMeanCol, rollMeanCol, rollingAgg_clean_getD listMean xs w i hw0 hi,
        rollingAgg_clean_getD listMean ys w i hw0 hi2]
      by_cases hle : w ≤ i
      · simp [hle, window_prefix_eq xs ys i w hle hpre]
      · simp [hle]
    · rw [rollStdCol, rollStdCol, getD_map_option, getD_map_option, rollVarCol,
        rollVarCol, rollingAgg_clean_getD listVar xs w i hw0 hi,
        rollingAgg_clean_getD listVar ys w i hw0 hi2]
      by_cases hle : w ≤ i
      · simp [hle, window_prefix_eq xs ys i w hle hpre]
      · simp [hle]
  · have hi2 : ¬ i < ys.length := by omega
    refine ⟨?_, ?_, ?_⟩
    · rw [getD_out_of_range _ i (by simp [lagCol]; omega),
        getD_out_of_range _ i (by simp [lagCol]; omega)]
    · rw [getD_out_of_range _ i (by simp [rollMeanCol]; omega),
        getD_out_of_range _ i (by simp [rollMeanCol]; omega)]
    · have hsx : (rollStdCol w (xs.map some)).length = xs.length := by
        simp [rollStdCol, rollVarCol]
      have hsy : (rollStdCol w (ys.map some)).length = ys.length := by
        simp [rollStdCol, rollVarCol]
      rw [List.getD_eq_getElem?_getD, List.getD_eq_getElem?_getD,
        List.getElem?_eq_none (by omega), List.getElem?_eq_none (by omega)]

theorem claim_C1_causal_witness :
    (lagCol 1 (([1, 2, 3] : List ℚ).map some)).getD 2 none
      = (lagCol 1 (([1, 2, 4] : List ℚ).map some)).getD 2 none :=
  (claim_C1_causal [1, 2, 3] [1, 2, 4] 2 1 3 (by decide) (by decide) (by decide)
    (by decide)).1

/-- C1 fails as stated over the raw table: two sorted two-row raw tables
that agree on every row at positions `< 1` and differ only at position 1
(`pm2_5` 30 versus 50, with a null at position 0) produce different lag-1
`pm2_5` features at row 1, because imputation fills the null at position 0
from the future value at position 1. -/
theorem claim_C1_counterexample :
    ([⟨0, some 1, some 1, some 1, some 1, some 1, some 1, none, some 1, some 1⟩,
      ⟨3600, some 1, some 1, some 1, some 1, some 1, some 1, some 30, some 1, some 1⟩]
        : List RawRow).take 1
      = ([⟨0, some 1, some 1, some 1, some 1, some 1, some 1, none, some 1, some 1⟩,
          ⟨3600, some 1, some 1, some 1, some 1, some 1, some 1, some 50, some 1, some 1⟩]
            : List RawRow).take 1
    ∧ (lagCol 1 (imputeTable
        [⟨0, some 1, some 1, some 1, some 1, some 1, some 1, none, some 1, some 1⟩,
         ⟨3600, some 1, some 1, some 1, some 1, some 1, some 1, some 30, some 1, some 1⟩]).pm2_5).getD
        1 none
      ≠ (lagCol 1 (imputeTable
        [⟨0, some 1, some 1, some 1, some 1, some 1, some 1, none, some 1, some 1⟩,
         ⟨3600, some 1, some 1, some 1, some 1, some 1, some 1, some 50, some 1, some 1⟩]).pm2_5).getD
        1 none := by
  decide

/-- C2 (amended): after the imputation stage, a channel holding at least one
valid value contains no null in any row; a channel that is entirely null,
however, passes through interpolation, forward fill and backward fill
unchanged — the run does not fail, but the nulls survive the imputation
stage (no default value is substituted there; the rows are later removed
wholesale by `dropna`). -/
theorem claim_C2_imputation (c : List (Option ℚ)) :
    ((∃ x ∈ c, x.isSome) → ∀ y ∈ imputeColumn c, y.isSome)
      ∧ ((∀ x ∈ c, x = none) → imputeColumn c = c) :=
  ⟨imputeColumn_allSome c, imputeColumn_allNone c⟩

theorem claim_C2_imputation_witness :
    (∀ y ∈ imputeColumn [none, some (2 : ℚ), none], y.isSome)
      ∧ imputeColumn (List.replicate 3 (none : Option ℚ))
          = List.replicate 3 none := by
  refine ⟨(claim_C2_imputation [none, some (2 : ℚ), none]).1 ⟨some 2, by decide, rfl⟩,
    (claim_C2_imputation (List.replicate 3 none)).2 (by decide)⟩

/-- C2 fails as stated: a raw table whose `co` channel is entirely null
still has an entirely-null `co` channel after the imputation stage, rather
than a default value. -/
theorem claim_C2_counterexample :
    ((imputeTable
        [⟨0, some 1, none, some 1, some 1, some 1, some 1, some 1, some 1, some 1⟩,
         ⟨3600, some 2, none, some 2, some 2, some 2, some 2, some 2, some 2, some 2⟩]).co.all
      fun x => x.isSome) = false := by
  decide

instance : IsTotal RawRow tsLE := ⟨fun a b => Int.le_total a.ts b.ts⟩

instance : IsTrans RawRow tsLE := ⟨fun _ _ _ hab hbc => le_trans hab hbc⟩

/-- C3 (amended): time normalization sorts the rows into non-strictly
ascending timestamp order and keeps every input row (the output is a
permutation of the input — no deduplication is performed); when the input
timestamps are pairwise distinct the result is strictly ascending with one
row per timestamp.  When duplicate timestamps occur, all duplicates are
retained (see the counterexample). -/
theorem claim_C3_normalize (rows : List RawRow) :
    List.Sorted tsLE (timeNormalize rows)
      ∧ List.Perm (timeNormalize rows) rows
      ∧ ((rows.map RawRow.ts).Nodup →
          ((timeNormalize rows).map RawRow.ts).Pairwise (· < ·)) := by
  refine ⟨List.sorted_insertionSort tsLE rows, List.perm_insertionSort tsLE rows, ?_⟩
  intro hnd
  have hperm : List.Perm ((timeNormalize rows).map RawRow.ts) (rows.map RawRow.ts) :=
    (List.perm_insertionSort tsLE rows).map RawRow.ts
  have hnd2 : ((timeNormalize rows).map RawRow.ts).Nodup := hperm.nodup_iff.mpr hnd
  have hple : ((timeNormalize rows).map RawRow.ts).Pairwise (· ≤ ·) := by
    rw [List.pairwise_map]
    exact List.sorted_insertionSort tsLE rows
  exact (hple.and hnd2).imp fun h => lt_of_le_of_ne h.1 h.2

theorem claim_C3_normalize_witness :
    ((timeNormalize
        [⟨3600, some 1, some 1, some 1, some 1, some 1, some 1, some 1, some 1, some 1⟩,
         ⟨0, some 2, some 2, some 2, some 2, some 2, some 2, some 2, some 2, some 2⟩]).map
      RawRow.ts).Pairwise (· < ·) :=
  (claim_C3_normalize _).2.2 (by decide)

/-- C3 fails as stated: two raw rows sharing timestamp 0 both survive time
normalization, so the normalized table holds two rows for a single unique
timestamp rather than one first-seen representative. -/
theorem claim_C3_counterexample :
    ¬ ((timeNormalize
        [⟨0, some 1, some 1, some 1, some 1, some 1, some 1, some 1, some 1, some 1⟩,
         ⟨0, some 2, some 2, some 2, some 2, some 2, some 2, some 2, some 2, some 2⟩]).map
      RawRow.ts).Nodup := by
  decide

/-- C8: for a raw table with `n` rows, pairwise-distinct timestamps and no
null channel values, the cleanup stage retains exactly the rows at
positions 24 through `n - 7` of the sorted table — `max (0, n - 30)` rows,
none when `n ≤ 30` — i.e. a row is dropped exactly when it lacks the full
24-row lag/rolling history or the 6-row-ahead target value. -/
theorem claim_C8_pruning (rows : List RawRow)
    (hnd : (rows.map RawRow.ts).Nodup)
    (hval : ∀ r ∈ rows, r.aqi.isSome ∧ r.co.isSome ∧ r.no.isSome ∧ r.no2.isSome ∧
      r.o3.isSome ∧ r.so2.isSome ∧ r.pm2_5.isSome ∧ r.pm10.isSome ∧ r.nh3.isSome) :
    featureIndices rows = List.range' 24 (rows.length - 30)
      ∧ (featureIndices rows).length = rows.length - 30 := by
  refine ⟨featureIndices_clean rows hval, ?_⟩
  rw [featureIndices_clean rows hval, List.length_range']

theorem claim_C8_pruning_witness :
    featureIndices
        [⟨0, some 1, some 1, some 1, some 1, some 1, some 1, some 1, some 1, some 1⟩,
         ⟨3600, some 2, some 2, some 2, some 2, some 2, some 2, some 2, some 2, some 2⟩]
      = List.range' 24 (2 - 30) :=
  (claim_C8_pruning _ (by decide) (by decide)).1

/-- C9: `engineer_features` is deterministic — two runs on identical raw
tables produce identical feature tables, row for row and column for
column. -/
theorem claim_C9_deterministic (rows1 rows2 : List RawRow) (h : rows1 = rows2) :
    engineer_features rows1 = engineer_features rows2 := by
  rw [h]

theorem claim_C9_deterministic_witness :
    engineer_features
        [⟨0, some 1, some 1, some 1, some 1, some 1, some 1, some 1, some 1, some 1⟩]
      = engineer_features
        [⟨0, some 1, some 1, some 1, some 1, some 1, some 1, some 1, some 1, some 1⟩] :=
  claim_C9_deterministic _ _ rfl

/-- C10: every cyclic-encoding value lies in `[-1, 1]`; the hour pair
satisfies `sin² + cos² = 1` for every timestamp; and for a timestamp whose
hour is 0 the pair is exactly `(0, 1)`. -/
theorem claim_C10_cyclic (x : ℤ) (d m : ℕ) :
    ((-1 ≤ hourSin (tsHour x) ∧ hourSin (tsHour x) ≤ 1)
      ∧ (-1 ≤ hourCos (tsHour x) ∧ hourCos (tsHour x) ≤ 1)
      ∧ (-1 ≤ dowSin d ∧ dowSin d ≤ 1) ∧ (-1 ≤ dowCos d ∧ dowCos d ≤ 1)
      ∧ (-1 ≤ monthSin m ∧ monthSin m ≤ 1) ∧ (-1 ≤ monthCos m ∧ monthCos m ≤ 1))
      ∧ hourSin (tsHour x) ^ 2 + hourCos (tsHour x) ^ 2 = 1
      ∧ (tsHour x = 0 → hourSin (tsHour x) = 0 ∧ hourCos (tsHour x) = 1) := by
  refine ⟨⟨⟨Real.neg_one_le_sin _, Real.sin_le_one _⟩,
    ⟨Real.neg_one_le_cos _, Real.cos_le_one _⟩,
    ⟨Real.neg_one_le_sin _, Real.sin_le_one _⟩,
    ⟨Real.neg_one_le_cos _, Real.cos_le_one _⟩,
    ⟨Real.neg_one_le_sin _, Real.sin_le_one _⟩,
    ⟨Real.neg_one_le_cos _, Real.cos_le_one _⟩⟩,
    Real.sin_sq_add_cos_sq _, ?_⟩
  intro h0
  rw [h0]
  constructor
  · simp [hourSin]
  · simp [hourCos]

theorem claim_C10_cyclic_witness :
    hourSin (tsHour 0) = 0 ∧ hourCos (tsHour 0) = 1 :=
  (claim_C10_cyclic 0 0 0).2.2 (by decide)

/-- C4: the feature-column list that train.py saves to
`feature_columns.json` (and that the serving API uses to order every input
vector) is exactly the set of feature-table columns other than `aqi` and
`timestamp`, in table order; in particular it contains the three
forward-shifted target columns. -/
theorem claim_C4_feature_columns :
    (∀ c : String, c ∈ trainFeatureColumns
        ↔ (c ∈ featureTableColumns ∧ c ≠ "aqi" ∧ c ≠ "timestamp"))
      ∧ "pm2_5_target_1h" ∈ trainFeatureColumns
      ∧ "pm2_5_target_6h" ∈ trainFeatureColumns
      ∧ "aqi_target_1h" ∈ trainFeatureColumns := by
  have hmem : ∀ c : String, c ∈ trainFeatureColumns
      ↔ (c ∈ featureTableColumns ∧ c ≠ "aqi" ∧ c ≠ "timestamp") := by
    intro c
    rw [trainFeatureColumns, List.mem_filter]
    simp [and_assoc]
  refine ⟨hmem, ?_, ?_, ?_⟩
  · exact (hmem _).mpr ⟨by decide, by decide, by decide⟩
  · exact (hmem _).mpr ⟨by decide, by decide, by decide⟩
  · exact (hmem _).mpr ⟨by decide, by decide, by decide⟩

end AQI